import Mathlib

/-!
Verification of the controlled-entity ownership subsystem of the repository.

The embedding follows `src/lightyear/src/server/clients.rs` (the
`ControlledEntities` reverse index, the `handle_controlled_by_update`,
`handle_controlled_by_remove` and `handle_client_disconnect` systems and the
schedule registration of `ClientsMetadataPlugin::build`) and
`src/examples/distributed_authority/src/server.rs` (the `transfer_authority`
policy system).

The ECS world is embedded as explicit association lists keyed by entity or
client id: `clientEntity` is the `ConnectionManager`'s map from a connected
client id to its client entity, `controlled` holds the `ControlledEntities`
component of each client entity, `controlledBy` holds the `ControlledBy`
component of replicated entities, `children` are the parent/child edges
followed by `despawn_recursive`, and `alive` is the set of live entities.
Bevy's change detection is made explicit: the per-client update closures
return a flag telling whether the `ControlledEntities` component was mutated
(a change signal).
-/

abbrev ClientId := Nat
abbrev Entity := Nat

/-- The `NetworkTarget` addressing expression
(`shared/replication/network_target.rs`): which peers an expression denotes. -/
inductive NetworkTarget where
  | noclient
  | single (client : ClientId)
  | only (clients : List ClientId)
  | all
  | allExceptSingle (client : ClientId)
deriving DecidableEq, Repr

/-- First-match lookup in an association list (an ECS component table). -/
def alookup {α β : Type} [DecidableEq α] : List (α × β) → α → Option β
  | [], _ => none
  | (k, v) :: rest, a => if k = a then some v else alookup rest a

/-- Modify the value stored at a key, leaving other entries alone
(the effect of a `get_mut` followed by a mutation). -/
def amodify {α β : Type} [DecidableEq α] (l : List (α × β)) (a : α) (f : β → β) :
    List (α × β) :=
  l.map (fun kv => if kv.1 = a then (kv.1, f kv.2) else kv)

/-- Delete every entry at a key (component removal / entity despawn). -/
def aerase {α β : Type} [DecidableEq α] (l : List (α × β)) (a : α) : List (α × β) :=
  l.filter (fun kv => kv.1 ≠ a)

theorem alookup_amodify {α β : Type} [DecidableEq α]
    (l : List (α × β)) (a x : α) (f : β → β) :
    alookup (amodify l a f) x =
      if x = a then (alookup l a).map f else alookup l x := by
  induction l with
  | nil => by_cases hxa : x = a <;> simp [alookup, amodify, hxa]
  | cons kv rest ih =>
    obtain ⟨k, v⟩ := kv
    by_cases hka : k = a
    · subst hka
      have hcons : amodify ((k, v) :: rest) k f = (k, f v) :: amodify rest k f := by
        simp [amodify]
      rw [hcons]
      by_cases hxk : x = k
      · subst hxk
        simp [alookup]
      · have hkx : ¬ k = x := fun h => hxk h.symm
        simp [alookup, hxk, hkx, ih]
    · have hcons : amodify ((k, v) :: rest) a f = (k, v) :: amodify rest a f := by
        simp [amodify, hka]
      rw [hcons]
      by_cases hkx : k = x
      · subst hkx
        have hxa : ¬ k = a := hka
        simp [alookup, hxa]
      · simp [alookup, hka, hkx, ih]

theorem alookup_aerase {α β : Type} [DecidableEq α] (l : List (α × β)) (a x : α) :
    alookup (aerase l a) x = if x = a then none else alookup l x := by
  induction l with
  | nil => by_cases hxa : x = a <;> simp [alookup, aerase, hxa]
  | cons kv rest ih =>
    obtain ⟨k, v⟩ := kv
    by_cases hka : k = a
    · subst hka
      have hcons : aerase ((k, v) :: rest) k = aerase rest k := by
        simp [aerase]
      rw [hcons]
      by_cases hxk : x = k
      · subst hxk
        simp [ih]
      · have hkx : ¬ k = x := fun h => hxk h.symm
        simp [alookup, hxk, hkx, ih]
    · have hcons : aerase ((k, v) :: rest) a = (k, v) :: aerase rest a := by
        simp [aerase, hka]
      rw [hcons]
      by_cases hkx : k = x
      · subst hkx
        have hxa : ¬ k = a := hka
        simp [alookup, hxa]
      · simp [alookup, hkx, ih]

theorem aerase_of_alookup_none {α β : Type} [DecidableEq α]
    (l : List (α × β)) (a : α) (h : alookup l a = none) : aerase l a = l := by
  induction l with
  | nil => rfl
  | cons kv rest ih =>
    obtain ⟨k, v⟩ := kv
    by_cases hka : k = a
    · simp [alookup, hka] at h
    · have h' : alookup rest a = none := by simpa [alookup, hka] using h
      calc aerase ((k, v) :: rest) a = (k, v) :: aerase rest a := by
            simp [aerase, hka]
        _ = (k, v) :: rest := by rw [ih h']

/-- The server-side ECS state visible to the clients-metadata systems. -/
structure World where
  /-- `ConnectionManager`: client id of each connected client ↦ its client entity. -/
  clientEntity : List (ClientId × Entity)
  /-- the `ControlledEntities` component stored on client entities: the
  contents of the `EntityHashSet`, kept duplicate-free by the guarded insert. -/
  controlled : List (Entity × List Entity)
  /-- the `ControlledBy` component stored on replicated entities. -/
  controlledBy : List (Entity × NetworkTarget)
  /-- parent/child hierarchy edges traversed by `despawn_recursive`. -/
  children : List (Entity × Entity)
  /-- the set of live entities. -/
  alive : Finset Entity
deriving DecidableEq

/-- `ConnectionManager::client_entity`: `Ok` exactly for connected clients. -/
def World.client_entity (w : World) (c : ClientId) : Option Entity :=
  alookup w.clientEntity c

/-- `ConnectionManager::connected_clients`. -/
def World.connected_clients (w : World) : List ClientId :=
  w.clientEntity.map Prod.fst

/-- The `update_controlled_entities` closure of `handle_controlled_by_update`:
look up the client entity, then its `ControlledEntities` component; if the
entity is already present do nothing (returning no change signal), otherwise
insert it (returning a change signal). -/
def update_controlled_entities_insert (w : World) (e : Entity) (c : ClientId) :
    World × Bool :=
  match w.client_entity c with
  | none => (w, false)
  | some ce =>
    match alookup w.controlled ce with
    | none => (w, false)
    | some s =>
      if e ∈ s then (w, false)
      else ({ w with controlled := amodify w.controlled ce (fun t => e :: t) },
            true)

/-- The `update_controlled_entities` closure of `handle_controlled_by_remove`:
same lookups, but removing; absent membership is a no-op with no signal. -/
def update_controlled_entities_remove (w : World) (e : Entity) (c : ClientId) :
    World × Bool :=
  match w.client_entity c with
  | none => (w, false)
  | some ce =>
    match alookup w.controlled ce with
    | none => (w, false)
    | some s =>
      if e ∉ s then (w, false)
      else ({ w with
              controlled := amodify w.controlled ce (fun t => t.filter (· ≠ e)) },
            true)

/-- Fan the insert closure out over a list of client ids, collecting the ids
whose `ControlledEntities` component was actually mutated (change signals). -/
def insertForClients (e : Entity) : World → List ClientId → World × List ClientId
  | w, [] => (w, [])
  | w, c :: cs =>
    let p := update_controlled_entities_insert w e c
    let q := insertForClients e p.1 cs
    (q.1, if p.2 then c :: q.2 else q.2)

/-- Fan the remove closure out over a list of client ids. -/
def removeForClients (e : Entity) : World → List ClientId → World × List ClientId
  | w, [] => (w, [])
  | w, c :: cs =>
    let p := update_controlled_entities_remove w e c
    let q := removeForClients e p.1 cs
    (q.1, if p.2 then c :: q.2 else q.2)

/-- `handle_controlled_by_update` for one entity of the `Changed<ControlledBy>`
query: dispatch on the target; the final catch-all arm of the `match` in the
source covers `All` and `AllExceptSingle` alike and fans out to every
connected client. -/
def handle_controlled_by_update (w : World) (e : Entity) : World × List ClientId :=
  match alookup w.controlledBy e with
  | none => (w, [])
  | some NetworkTarget.noclient => (w, [])
  | some (NetworkTarget.single c) => insertForClients e w [c]
  | some (NetworkTarget.only cs) => insertForClients e w cs
  | some _ => insertForClients e w w.connected_clients

/-- `handle_controlled_by_remove` (the `OnRemove` observer): it runs before the
actual removal, so the `ControlledBy` component of `e` is still readable; the
dispatch mirrors the update handler with removals. -/
def handle_controlled_by_remove (w : World) (e : Entity) : World × List ClientId :=
  match alookup w.controlledBy e with
  | none => (w, [])
  | some NetworkTarget.noclient => (w, [])
  | some (NetworkTarget.single c) => removeForClients e w [c]
  | some (NetworkTarget.only cs) => removeForClients e w cs
  | some _ => removeForClients e w w.connected_clients

/-- Insert (or overwrite) the `ControlledBy` component of an entity; a bevy
component overwrite does not trigger the `OnRemove` observer. -/
def setControlledBy (w : World) (e : Entity) (t : NetworkTarget) : World :=
  { w with controlledBy := (e, t) :: aerase w.controlledBy e }

/-- Remove the `ControlledBy` component: the `OnRemove` observer
(`handle_controlled_by_remove`) runs first, while the component is still
readable, then the component is dropped. -/
def removeControlledBy (w : World) (e : Entity) : World :=
  let w1 := (handle_controlled_by_remove w e).1
  { w1 with controlledBy := aerase w1.controlledBy e }

/-- One step of the child closure: add the direct children of entities already
collected. -/
def childStep (edges : List (Entity × Entity)) (s : List Entity) : List Entity :=
  s ++ (edges.filter (fun p => decide (p.1 ∈ s) && decide (p.2 ∉ s))).map Prod.snd

/-- Iterate the child closure a fixed number of times. -/
def descend (edges : List (Entity × Entity)) : Nat → List Entity → List Entity
  | 0, s => s
  | n + 1, s => descend edges n (childStep edges s)

/-- The entities removed by `despawn_recursive(e)`: `e` together with all of
its transitive children (iterating once per edge reaches a fixpoint). -/
def descendants (edges : List (Entity × Entity)) (e : Entity) : List Entity :=
  descend edges edges.length [e]

/-- Despawn a single entity: bevy runs the `OnRemove` observer for
`ControlledBy` first (while the components are still readable), then drops the
entity and its components. -/
def despawnOne (w : World) (e : Entity) : World :=
  let w1 := (handle_controlled_by_remove w e).1
  { w1 with alive := w1.alive.erase e,
            controlled := aerase w1.controlled e,
            controlledBy := aerase w1.controlledBy e }

/-- `EntityCommands::despawn_recursive`: despawn the entity and all of its
descendants. -/
def despawn_recursive (w : World) (e : Entity) : World :=
  (descendants w.children e).foldl despawnOne w

/-- The commands a system can queue; applied in queueing order after the
system has run. -/
inductive Command where
  | despawnRec (e : Entity)
deriving DecidableEq, Repr

def applyCommand (w : World) (c : Command) : World :=
  match c with
  | Command.despawnRec e => despawn_recursive w e

def applyCommands (w : World) (cs : List Command) : World :=
  cs.foldl applyCommand w

/-- A server `DisconnectEvent` carries the disconnected client's id and its
client entity. -/
structure DisconnectEvent where
  client_id : ClientId
  entity : Entity
deriving DecidableEq, Repr

/-- The commands `handle_client_disconnect` queues for one event: a recursive
despawn of every entity in the client's `ControlledEntities` set (if its
record exists), followed by a recursive despawn of the client entity itself. -/
def disconnectCommands (w : World) (ev : DisconnectEvent) : List Command :=
  (match alookup w.controlled ev.entity with
   | none => []
   | some s => s.map Command.despawnRec) ++ [Command.despawnRec ev.entity]

/-- `handle_client_disconnect`: read all pending disconnect events against the
pre-system world, queue their commands, then apply the queue in order. -/
def handle_client_disconnect (w : World) (evs : List DisconnectEvent) : World :=
  applyCommands w ((evs.map (disconnectCommands w)).flatten)

/-- Queue a recursive-despawn command for each listed entity, with the
queue-time existence check of `Commands::entity` (bevy 0.14): addressing an
entity that no longer exists panics, aborting the queueing (`none`). The
check is against the pre-system world, since the queued commands have not
been applied yet. -/
def queueDespawns (w : World) : List Entity → Option (List Command)
  | [] => some []
  | e :: es =>
    if e ∈ w.alive then
      match queueDespawns w es with
      | some cs => some (Command.despawnRec e :: cs)
      | none => none
    else none

/-- The commands `handle_client_disconnect` queues for one event, with the
queue-time existence check made explicit: the despawns of the controlled
entities (when the record exists) followed by the unconditional despawn of
the event's client entity — the `despawn_recursive` on line 149 of
`clients.rs` sits outside the `if let` and is issued whether or not the
record was found. -/
def disconnectCommandsChecked (w : World) (ev : DisconnectEvent) :
    Option (List Command) :=
  queueDespawns w
    ((match alookup w.controlled ev.entity with
      | none => []
      | some s => s) ++ [ev.entity])

/-- Queue the commands of every pending event; a panic while queueing aborts
the whole system, so no command at all gets applied. -/
def queueAllDisconnects (w : World) : List DisconnectEvent → Option (List Command)
  | [] => some []
  | ev :: evs =>
    match disconnectCommandsChecked w ev, queueAllDisconnects w evs with
    | some cs, some rest => some (cs ++ rest)
    | _, _ => none

/-- `handle_client_disconnect` with the queue-time panic of `Commands::entity`
made explicit: `none` means the system panicked while queueing and nothing was
applied; otherwise the queued commands are applied in order (and then agree
with the unchecked model, see `disconnectCommandsChecked_sound`). -/
def handle_client_disconnect_checked (w : World) (evs : List DisconnectEvent) :
    Option World :=
  (queueAllDisconnects w evs).map (applyCommands w)

/-- The bevy main-loop schedules in their execution order within one tick. -/
inductive Sched where
  | first
  | preUpdate
  | fixedMain
  | update
  | postUpdate
  | last
deriving DecidableEq, Repr

def schedIndex : Sched → Nat
  | Sched.first => 0
  | Sched.preUpdate => 1
  | Sched.fixedMain => 2
  | Sched.update => 3
  | Sched.postUpdate => 4
  | Sched.last => 5

inductive SystemId where
  | handleControlledByUpdate
  | handleClientDisconnect
deriving DecidableEq, Repr

/-- The schedule registrations performed by `ClientsMetadataPlugin::build`:
`handle_controlled_by_update` in `PostUpdate` and `handle_client_disconnect`
in `Last` (the comment in `build` says the disconnect cascade is deliberately
put in `Last` so users can react to the disconnect event first). -/
def clientsMetadataPluginSystems : List (Sched × SystemId) :=
  [(Sched.postUpdate, SystemId.handleControlledByUpdate),
   (Sched.last, SystemId.handleClientDisconnect)]

/-- One tick: user-registered systems and observers (arbitrary) run in the
schedules before `Last`; the disconnect cascade then runs in `Last`, and the
tick ends. -/
def runTick (userSystems : World → World) (w : World) (evs : List DisconnectEvent) :
    World :=
  handle_client_disconnect (userSystems w) evs

/-- `AuthorityPeer` from the distributed-authority machinery. -/
inductive AuthorityPeer where
  | nopeer
  | server
  | client (id : ClientId)
deriving DecidableEq, Repr

/-- `player_pos.0.distance(ball_pos.0) < 100.0` from `transfer_authority`,
expressed exactly over integer coordinates: the Euclidean distance is below
100 iff the squared distance is below 100², which avoids the square root. -/
def distBelow100 (p b : Int × Int) : Bool :=
  decide ((p.1 - b.1) * (p.1 - b.1) + (p.2 - b.2) * (p.2 - b.2) <
    (100 : Int) * 100)

/-- The `transfer_authority` system of the distributed-authority example
(its body after the timer guard): for each ball, scan the players in query
order; the first player within distance 100 receives authority and the `return`
exits the whole system; if no player is close, authority is transferred back to
the server and the scan moves to the next ball. Returns the queued
`transfer_authority` commands `(ball entity, new authority)`. -/
def transfer_authority (balls : List (Entity × (Int × Int)))
    (players : List (ClientId × (Int × Int))) : List (Entity × AuthorityPeer) :=
  match balls with
  | [] => []
  | (ballE, ballPos) :: rest =>
    match players.find? (fun p => distBelow100 p.2 ballPos) with
    | some p => [(ballE, AuthorityPeer.client p.1)]
    | none => (ballE, AuthorityPeer.server) :: transfer_authority rest players

/-- The effect of the guarded insert of `update_controlled_entities_insert`
on the stored set. -/
def listInsert (e : Entity) (s : List Entity) : List Entity :=
  if e ∈ s then s else e :: s

/-- The effect of the guarded removal of `update_controlled_entities_remove`
on the stored set. -/
def listRemove (e : Entity) (s : List Entity) : List Entity :=
  s.filter (· ≠ e)

theorem listInsert_idem (e : Entity) (s : List Entity) :
    listInsert e (listInsert e s) = listInsert e s := by
  unfold listInsert
  by_cases h : e ∈ s <;> simp [h]

theorem mem_listInsert_self (e : Entity) (s : List Entity) : e ∈ listInsert e s := by
  unfold listInsert
  by_cases h : e ∈ s <;> simp [h]

theorem listRemove_idem (e : Entity) (s : List Entity) :
    listRemove e (listRemove e s) = listRemove e s := by
  unfold listRemove
  apply List.filter_eq_self.mpr
  intro a ha
  exact (List.mem_filter.mp ha).2

theorem not_mem_listRemove (e : Entity) (s : List Entity) : e ∉ listRemove e s := by
  unfold listRemove
  intro h
  have := (List.mem_filter.mp h).2
  simp at this

theorem listRemove_of_not_mem (e : Entity) (s : List Entity) (h : e ∉ s) :
    listRemove e s = s := by
  unfold listRemove
  apply List.filter_eq_self.mpr
  intro a ha
  have : a ≠ e := fun hae => h (hae ▸ ha)
  simpa using this

theorem insert_closure_controlled (w : World) (e : Entity) (c : ClientId)
    (x : Entity) :
    alookup (update_controlled_entities_insert w e c).1.controlled x =
      if w.client_entity c = some x then (alookup w.controlled x).map (listInsert e)
      else alookup w.controlled x := by
  unfold update_controlled_entities_insert
  cases h1 : w.client_entity c with
  | none => simp [h1]
  | some ce =>
    cases h2 : alookup w.controlled ce with
    | none =>
      by_cases hx : ce = x
      · subst hx
        simp [h1, h2]
      · simp [h1, h2, hx]
    | some s =>
      by_cases he : e ∈ s
      · by_cases hx : ce = x
        · subst hx
          simp [h1, h2, he, listInsert]
        · simp [h1, h2, he, hx]
      · by_cases hx : ce = x
        · subst hx
          simp [h1, h2, he, alookup_amodify, listInsert]
        · have hx' : ¬ x = ce := fun h => hx h.symm
          simp [h1, h2, he, alookup_amodify, hx, hx']

theorem insert_closure_frame (w : World) (e : Entity) (c : ClientId) :
    (update_controlled_entities_insert w e c).1.clientEntity = w.clientEntity ∧
    (update_controlled_entities_insert w e c).1.controlledBy = w.controlledBy ∧
    (update_controlled_entities_insert w e c).1.children = w.children ∧
    (update_controlled_entities_insert w e c).1.alive = w.alive := by
  unfold update_controlled_entities_insert
  cases h1 : w.client_entity c with
  | none => simp [h1]
  | some ce =>
    cases h2 : alookup w.controlled ce with
    | none => simp [h1, h2]
    | some s => by_cases he : e ∈ s <;> simp [h1, h2, he]

theorem remove_closure_controlled (w : World) (e : Entity) (c : ClientId)
    (x : Entity) :
    alookup (update_controlled_entities_remove w e c).1.controlled x =
      if w.client_entity c = some x then (alookup w.controlled x).map (listRemove e)
      else alookup w.controlled x := by
  unfold update_controlled_entities_remove
  cases h1 : w.client_entity c with
  | none => simp [h1]
  | some ce =>
    cases h2 : alookup w.controlled ce with
    | none =>
      by_cases hx : ce = x
      · subst hx
        simp [h1, h2]
      · simp [h1, h2, hx]
    | some s =>
      by_cases he : e ∈ s
      · by_cases hx : ce = x
        · subst hx
          simp [h1, h2, he, alookup_amodify, listRemove]
        · have hx' : ¬ x = ce := fun h => hx h.symm
          simp [h1, h2, he, alookup_amodify, hx, hx']
      · by_cases hx : ce = x
        · subst hx
          simp [h1, h2, he, listRemove_of_not_mem e s he]
        · simp [h1, h2, he, hx]

theorem remove_closure_frame (w : World) (e : Entity) (c : ClientId) :
    (update_controlled_entities_remove w e c).1.clientEntity = w.clientEntity ∧
    (update_controlled_entities_remove w e c).1.controlledBy = w.controlledBy ∧
    (update_controlled_entities_remove w e c).1.children = w.children ∧
    (update_controlled_entities_remove w e c).1.alive = w.alive := by
  unfold update_controlled_entities_remove
  cases h1 : w.client_entity c with
  | none => simp [h1]
  | some ce =>
    cases h2 : alookup w.controlled ce with
    | none => simp [h1, h2]
    | some s => by_cases he : e ∈ s <;> simp [h1, h2, he]

theorem insertForClients_cons_fst (e : Entity) (w : World) (c : ClientId)
    (cs : List ClientId) :
    (insertForClients e w (c :: cs)).1 =
      (insertForClients e (update_controlled_entities_insert w e c).1 cs).1 := rfl

theorem removeForClients_cons_fst (e : Entity) (w : World) (c : ClientId)
    (cs : List ClientId) :
    (removeForClients e w (c :: cs)).1 =
      (removeForClients e (update_controlled_entities_remove w e c).1 cs).1 := rfl

theorem insertForClients_frame (e : Entity) (cs : List ClientId) (w : World) :
    (insertForClients e w cs).1.clientEntity = w.clientEntity ∧
    (insertForClients e w cs).1.controlledBy = w.controlledBy ∧
    (insertForClients e w cs).1.children = w.children ∧
    (insertForClients e w cs).1.alive = w.alive := by
  induction cs generalizing w with
  | nil => exact ⟨rfl, rfl, rfl, rfl⟩
  | cons c cs ih =>
    rw [insertForClients_cons_fst]
    obtain ⟨a1, a2, a3, a4⟩ := insert_closure_frame w e c
    obtain ⟨b1, b2, b3, b4⟩ := ih (update_controlled_entities_insert w e c).1
    exact ⟨by rw [b1, a1], by rw [b2, a2], by rw [b3, a3], by rw [b4, a4]⟩

theorem removeForClients_frame (e : Entity) (cs : List ClientId) (w : World) :
    (removeForClients e w cs).1.clientEntity = w.clientEntity ∧
    (removeForClients e w cs).1.controlledBy = w.controlledBy ∧
    (removeForClients e w cs).1.children = w.children ∧
    (removeForClients e w cs).1.alive = w.alive := by
  induction cs generalizing w with
  | nil => exact ⟨rfl, rfl, rfl, rfl⟩
  | cons c cs ih =>
    rw [removeForClients_cons_fst]
    obtain ⟨a1, a2, a3, a4⟩ := remove_closure_frame w e c
    obtain ⟨b1, b2, b3, b4⟩ := ih (update_controlled_entities_remove w e c).1
    exact ⟨by rw [b1, a1], by rw [b2, a2], by rw [b3, a3], by rw [b4, a4]⟩

theorem insertForClients_controlled (e : Entity) (cs : List ClientId) (w : World)
    (x : Entity) :
    alookup (insertForClients e w cs).1.controlled x =
      if ∃ c ∈ cs, w.client_entity c = some x
      then (alookup w.controlled x).map (listInsert e)
      else alookup w.controlled x := by
  induction cs generalizing w with
  | nil => simp [insertForClients]
  | cons c cs ih =>
    rw [insertForClients_cons_fst]
    have hce : ∀ c', (update_controlled_entities_insert w e c).1.client_entity c' =
        w.client_entity c' := by
      intro c'
      unfold World.client_entity
      rw [(insert_closure_frame w e c).1]
    rw [ih]
    simp only [hce, insert_closure_controlled]
    by_cases hc : w.client_entity c = some x
    · by_cases hex : ∃ c' ∈ cs, w.client_entity c' = some x
      · cases alookup w.controlled x with
        | none => simp [hc, hex]
        | some s => simp [hc, hex, listInsert_idem]
      · simp [hc, hex]
    · by_cases hex : ∃ c' ∈ cs, w.client_entity c' = some x
      · simp [hc, hex]
      · simp [hc, hex]

theorem removeForClients_controlled (e : Entity) (cs : List ClientId) (w : World)
    (x : Entity) :
    alookup (removeForClients e w cs).1.controlled x =
      if ∃ c ∈ cs, w.client_entity c = some x
      then (alookup w.controlled x).map (listRemove e)
      else alookup w.controlled x := by
  induction cs generalizing w with
  | nil => simp [removeForClients]
  | cons c cs ih =>
    rw [removeForClients_cons_fst]
    have hce : ∀ c', (update_controlled_entities_remove w e c).1.client_entity c' =
        w.client_entity c' := by
      intro c'
      unfold World.client_entity
      rw [(remove_closure_frame w e c).1]
    rw [ih]
    simp only [hce, remove_closure_controlled]
    by_cases hc : w.client_entity c = some x
    · by_cases hex : ∃ c' ∈ cs, w.client_entity c' = some x
      · cases alookup w.controlled x with
        | none => simp [hc, hex]
        | some s => simp [hc, hex, listRemove_idem]
      · simp [hc, hex]
    · by_cases hex : ∃ c' ∈ cs, w.client_entity c' = some x
      · simp [hc, hex]
      · simp [hc, hex]

theorem handle_update_frame (w : World) (e : Entity) :
    (handle_controlled_by_update w e).1.clientEntity = w.clientEntity ∧
    (handle_controlled_by_update w e).1.controlledBy = w.controlledBy ∧
    (handle_controlled_by_update w e).1.children = w.children ∧
    (handle_controlled_by_update w e).1.alive = w.alive := by
  unfold handle_controlled_by_update
  cases h : alookup w.controlledBy e with
  | none => simp [h]
  | some t =>
    cases t with
    | noclient => simp [h]
    | single c => simpa [h] using insertForClients_frame e [c] w
    | only cs => simpa [h] using insertForClients_frame e cs w
    | all => simpa [h] using insertForClients_frame e w.connected_clients w
    | allExceptSingle c =>
      simpa [h] using insertForClients_frame e w.connected_clients w

theorem handle_remove_frame (w : World) (e : Entity) :
    (handle_controlled_by_remove w e).1.clientEntity = w.clientEntity ∧
    (handle_controlled_by_remove w e).1.controlledBy = w.controlledBy ∧
    (handle_controlled_by_remove w e).1.children = w.children ∧
    (handle_controlled_by_remove w e).1.alive = w.alive := by
  unfold handle_controlled_by_remove
  cases h : alookup w.controlledBy e with
  | none => simp [h]
  | some t =>
    cases t with
    | noclient => simp [h]
    | single c => simpa [h] using removeForClients_frame e [c] w
    | only cs => simpa [h] using removeForClients_frame e cs w
    | all => simpa [h] using removeForClients_frame e w.connected_clients w
    | allExceptSingle c =>
      simpa [h] using removeForClients_frame e w.connected_clients w

theorem handle_remove_controlled_none (w : World) (e x : Entity)
    (hx : alookup w.controlled x = none) :
    alookup (handle_controlled_by_remove w e).1.controlled x = none := by
  unfold handle_controlled_by_remove
  cases h : alookup w.controlledBy e with
  | none => simpa [h] using hx
  | some t =>
    cases t with
    | noclient => simpa [h] using hx
    | single c => simp [h, removeForClients_controlled, hx]
    | only cs => simp [h, removeForClients_controlled, hx]
    | all => simp [h, removeForClients_controlled, hx]
    | allExceptSingle c => simp [h, removeForClients_controlled, hx]

theorem despawnOne_frame (w : World) (d : Entity) :
    (despawnOne w d).clientEntity = w.clientEntity ∧
    (despawnOne w d).children = w.children ∧
    (despawnOne w d).alive = w.alive.erase d := by
  unfold despawnOne
  refine ⟨(handle_remove_frame w d).1, (handle_remove_frame w d).2.2.1, ?_⟩
  show (handle_controlled_by_remove w d).1.alive.erase d = w.alive.erase d
  rw [(handle_remove_frame w d).2.2.2]

theorem despawnOne_controlled_none (w : World) (d x : Entity)
    (hx : alookup w.controlled x = none) :
    alookup (despawnOne w d).controlled x = none := by
  unfold despawnOne
  rw [alookup_aerase]
  by_cases hxd : x = d
  · simp [hxd]
  · simp [hxd, handle_remove_controlled_none w d x hx]

theorem despawnOne_controlled_self (w : World) (d : Entity) :
    alookup (despawnOne w d).controlled d = none := by
  unfold despawnOne
  rw [alookup_aerase]
  simp

theorem foldl_despawnOne_children (L : List Entity) (w : World) :
    (L.foldl despawnOne w).children = w.children := by
  induction L generalizing w with
  | nil => rfl
  | cons d L ih => rw [List.foldl_cons, ih, (despawnOne_frame w d).2.1]

theorem foldl_despawnOne_clientEntity (L : List Entity) (w : World) :
    (L.foldl despawnOne w).clientEntity = w.clientEntity := by
  induction L generalizing w with
  | nil => rfl
  | cons d L ih => rw [List.foldl_cons, ih, (despawnOne_frame w d).1]

theorem foldl_despawnOne_alive_subset (L : List Entity) (w : World) :
    (L.foldl despawnOne w).alive ⊆ w.alive := by
  induction L generalizing w with
  | nil => exact fun x hx => hx
  | cons d L ih =>
    intro x hx
    rw [List.foldl_cons] at hx
    have h1 := ih (despawnOne w d) hx
    rw [(despawnOne_frame w d).2.2] at h1
    exact Finset.mem_of_mem_erase h1

theorem foldl_despawnOne_kills (L : List Entity) (w : World) (d : Entity)
    (hd : d ∈ L) : d ∉ (L.foldl despawnOne w).alive := by
  revert hd
  induction L generalizing w with
  | nil => intro hd; cases hd
  | cons a L ih =>
    intro hd
    rw [List.foldl_cons]
    rcases List.mem_cons.mp hd with h | h
    · subst h
      intro hmem
      have h2 := foldl_despawnOne_alive_subset L (despawnOne w d) hmem
      rw [(despawnOne_frame w d).2.2] at h2
      exact Finset.not_mem_erase d w.alive h2
    · exact ih (despawnOne w a) h

theorem foldl_despawnOne_controlled_none (L : List Entity) (w : World) (x : Entity)
    (hx : alookup w.controlled x = none) :
    alookup (L.foldl despawnOne w).controlled x = none := by
  revert hx
  induction L generalizing w with
  | nil => intro hx; exact hx
  | cons d L ih =>
    intro hx
    rw [List.foldl_cons]
    exact ih (despawnOne w d) (despawnOne_controlled_none w d x hx)

theorem foldl_despawnOne_controlled_none_of_mem (L : List Entity) (w : World)
    (d : Entity) (hd : d ∈ L) :
    alookup (L.foldl despawnOne w).controlled d = none := by
  revert hd
  induction L generalizing w with
  | nil => intro hd; cases hd
  | cons a L ih =>
    intro hd
    rw [List.foldl_cons]
    rcases List.mem_cons.mp hd with h | h
    · subst h
      exact foldl_despawnOne_controlled_none L (despawnOne w d) d
        (despawnOne_controlled_self w d)
    · exact ih (despawnOne w a) h

theorem mem_descend_of_mem (edges : List (Entity × Entity)) (n : Nat)
    (s : List Entity) (x : Entity) (hx : x ∈ s) : x ∈ descend edges n s := by
  induction n generalizing s with
  | zero => exact hx
  | succ n ih =>
    exact ih (childStep edges s) (by unfold childStep; exact List.mem_append_left _ hx)

theorem self_mem_descendants (edges : List (Entity × Entity)) (e : Entity) :
    e ∈ descendants edges e :=
  mem_descend_of_mem edges edges.length [e] e (List.mem_cons_self e [])

theorem despawn_recursive_children (w : World) (e : Entity) :
    (despawn_recursive w e).children = w.children :=
  foldl_despawnOne_children _ w

theorem despawn_recursive_alive_subset (w : World) (e : Entity) :
    (despawn_recursive w e).alive ⊆ w.alive :=
  foldl_despawnOne_alive_subset _ w

theorem despawn_recursive_kills (w : World) (e d : Entity)
    (hd : d ∈ descendants w.children e) : d ∉ (despawn_recursive w e).alive :=
  foldl_despawnOne_kills _ w d hd

theorem despawn_recursive_controlled_none (w : World) (e x : Entity)
    (hx : alookup w.controlled x = none) :
    alookup (despawn_recursive w e).controlled x = none :=
  foldl_despawnOne_controlled_none _ w x hx

theorem despawn_recursive_controlled_self (w : World) (e : Entity) :
    alookup (despawn_recursive w e).controlled e = none :=
  foldl_despawnOne_controlled_none_of_mem _ w e (self_mem_descendants w.children e)

theorem applyCommand_children (w : World) (c : Command) :
    (applyCommand w c).children = w.children := by
  cases c with
  | despawnRec e => exact despawn_recursive_children w e

theorem applyCommands_children (cs : List Command) (w : World) :
    (applyCommands w cs).children = w.children := by
  induction cs generalizing w with
  | nil => rfl
  | cons c cs ih =>
    unfold applyCommands at *
    rw [List.foldl_cons, ih, applyCommand_children]

theorem applyCommand_alive_subset (w : World) (c : Command) :
    (applyCommand w c).alive ⊆ w.alive := by
  cases c with
  | despawnRec e => exact despawn_recursive_alive_subset w e

theorem applyCommands_alive_subset (cs : List Command) (w : World) :
    (applyCommands w cs).alive ⊆ w.alive := by
  induction cs generalizing w with
  | nil => exact fun x hx => hx
  | cons c cs ih =>
    intro x hx
    unfold applyCommands at hx
    rw [List.foldl_cons] at hx
    exact applyCommand_alive_subset w c (ih (applyCommand w c) hx)

theorem applyCommand_controlled_none (w : World) (c : Command) (x : Entity)
    (hx : alookup w.controlled x = none) :
    alookup (applyCommand w c).controlled x = none := by
  cases c with
  | despawnRec e => exact despawn_recursive_controlled_none w e x hx

theorem applyCommands_controlled_none (cs : List Command) (w : World) (x : Entity)
    (hx : alookup w.controlled x = none) :
    alookup (applyCommands w cs).controlled x = none := by
  revert hx
  induction cs generalizing w with
  | nil => intro hx; exact hx
  | cons c cs ih =>
    intro hx
    unfold applyCommands at *
    rw [List.foldl_cons]
    exact ih (applyCommand w c) (applyCommand_controlled_none w c x hx)

theorem applyCommands_kills (cs : List Command) (w : World) (d : Entity)
    (hd : Command.despawnRec d ∈ cs) (x : Entity)
    (hx : x ∈ descendants w.children d) : x ∉ (applyCommands w cs).alive := by
  revert hd hx
  induction cs generalizing w with
  | nil => intro hd _; cases hd
  | cons c cs ih =>
    intro hd hx
    unfold applyCommands
    rw [List.foldl_cons]
    rcases List.mem_cons.mp hd with h | h
    · subst h
      intro hmem
      have h2 := applyCommands_alive_subset cs (applyCommand w (Command.despawnRec d))
      exact despawn_recursive_kills w d x hx (h2 hmem)
    · have hch : descendants (applyCommand w c).children d = descendants w.children d := by
        rw [applyCommand_children]
      exact ih (applyCommand w c) h (by rw [hch]; exact hx)

theorem applyCommands_controlled_none_of_mem (cs : List Command) (w : World)
    (d : Entity) (hd : Command.despawnRec d ∈ cs) :
    alookup (applyCommands w cs).controlled d = none := by
  revert hd
  induction cs generalizing w with
  | nil => intro hd; cases hd
  | cons c cs ih =>
    intro hd
    unfold applyCommands
    rw [List.foldl_cons]
    rcases List.mem_cons.mp hd with h | h
    · subst h
      exact applyCommands_controlled_none cs (applyCommand w (Command.despawnRec d)) d
        (despawn_recursive_controlled_self w d)
    · exact ih (applyCommand w c) h

theorem alookup_mem_values {α β : Type} [DecidableEq α] (l : List (α × β)) (a : α)
    (x : β) (h : alookup l a = some x) : x ∈ l.map Prod.snd := by
  induction l with
  | nil => simp [alookup] at h
  | cons kv rest ih =>
    obtain ⟨k, v⟩ := kv
    by_cases hka : k = a
    · simp [alookup, hka] at h
      simp [h]
    · simp [alookup, hka] at h
      simp [ih h]

theorem alookup_ne_of_values_nodup {α β : Type} [DecidableEq α]
    (l : List (α × β)) (hnd : (l.map Prod.snd).Nodup) (a b : α) (x y : β)
    (ha : alookup l a = some x) (hb : alookup l b = some y) (hab : a ≠ b) :
    x ≠ y := by
  induction l with
  | nil => simp [alookup] at ha
  | cons kv rest ih =>
    obtain ⟨k, v⟩ := kv
    have hnd' : (rest.map Prod.snd).Nodup := (List.nodup_cons.mp hnd).2
    have hv : v ∉ rest.map Prod.snd := (List.nodup_cons.mp hnd).1
    by_cases hka : k = a
    · have hkb : ¬ k = b := fun h => hab (hka ▸ h ▸ rfl)
      simp [alookup, hka] at ha
      simp [alookup, hkb] at hb
      have hy : y ∈ rest.map Prod.snd := alookup_mem_values rest b y hb
      intro hxy
      exact hv (ha ▸ hxy ▸ hy)
    · by_cases hkb : k = b
      · simp [alookup, hka] at ha
        simp [alookup, hkb] at hb
        have hx : x ∈ rest.map Prod.snd := alookup_mem_values rest a x ha
        intro hxy
        exact hv (hb ▸ hxy ▸ hx)
      · simp [alookup, hka] at ha
        simp [alookup, hkb] at hb
        exact ih hnd' ha hb

theorem find_eq_of_unique {α : Type} (l : List α) (p : α → Bool) (a : α)
    (ha : a ∈ l) (hpa : p a = true) (huniq : ∀ b ∈ l, p b = true → b = a) :
    l.find? p = some a := by
  induction l with
  | nil => cases ha
  | cons x l ih =>
    by_cases hpx : p x = true
    · have hxa : x = a := huniq x (List.mem_cons_self x l) hpx
      subst hxa
      simp [List.find?_cons_of_pos, hpx]
    · have hax : a ≠ x := fun h => hpx (h ▸ hpa)
      have ha' : a ∈ l := by
        rcases List.mem_cons.mp ha with h | h
        · exact absurd h hax
        · exact h
      rw [List.find?_cons_of_neg _ (by simp [hpx])]
      exact ih ha' (fun b hb hpb => huniq b (List.mem_cons_of_mem x hb) hpb)

theorem childStep_isolated (edges : List (Entity × Entity)) (e : Entity)
    (h : ∀ d, (e, d) ∉ edges) : childStep edges [e] = [e] := by
  unfold childStep
  have hfil : edges.filter (fun p => decide (p.1 ∈ [e]) && decide (p.2 ∉ [e])) = [] := by
    rw [List.filter_eq_nil_iff]
    intro p hp
    simp only [List.mem_singleton, Bool.and_eq_true, decide_eq_true_eq, not_and]
    intro h1
    have hpe : (e, p.2) ∈ edges := by
      have hp' : (p.1, p.2) ∈ edges := hp
      rw [h1] at hp'
      exact hp'
    exact absurd hpe (h p.2)
  rw [hfil]
  simp

theorem descend_isolated (edges : List (Entity × Entity)) (e : Entity)
    (h : ∀ d, (e, d) ∉ edges) (n : Nat) : descend edges n [e] = [e] := by
  induction n with
  | zero => rfl
  | succ n ih =>
    unfold descend
    rw [childStep_isolated edges e h]
    exact ih

theorem descendants_isolated (edges : List (Entity × Entity)) (e : Entity)
    (h : ∀ d, (e, d) ∉ edges) : descendants edges e = [e] :=
  descend_isolated edges e h edges.length

theorem setControlledBy_fields (w : World) (e : Entity) (t : NetworkTarget) :
    (setControlledBy w e t).clientEntity = w.clientEntity ∧
    (setControlledBy w e t).controlled = w.controlled ∧
    (setControlledBy w e t).children = w.children ∧
    (setControlledBy w e t).alive = w.alive ∧
    alookup (setControlledBy w e t).controlledBy e = some t := by
  refine ⟨rfl, rfl, rfl, rfl, ?_⟩
  unfold setControlledBy
  simp [alookup]

/-- Claim C4: membership operations on a peer's ControlledEntities set are
idempotent. Inserting an entity that is already in the set leaves the world
unchanged and emits no change signal (the closure returns before mutating the
component), and removing an entity that is not in the set is likewise a no-op
with no change signal. -/
theorem controlled_entities_ops_idempotent (w : World) (c : ClientId)
    (ce e : Entity) (s : List Entity)
    (hce : w.client_entity c = some ce)
    (hs : alookup w.controlled ce = some s) :
    (e ∈ s → update_controlled_entities_insert w e c = (w, false)) ∧
    (e ∉ s → update_controlled_entities_remove w e c = (w, false)) := by
  constructor
  · intro he
    unfold update_controlled_entities_insert
    simp [hce, hs, he]
  · intro he
    unfold update_controlled_entities_remove
    simp [hce, hs, he]

/-- Witness for C4: inserting 5 (already present) and removing 7 (absent) both
return the unchanged world with no change signal. -/
theorem controlled_entities_ops_idempotent_witness :
    (update_controlled_entities_insert ⟨[(1, 100)], [(100, [5])], [], [], ∅⟩ 5 1 =
      (⟨[(1, 100)], [(100, [5])], [], [], ∅⟩, false)) ∧
    (update_controlled_entities_remove ⟨[(1, 100)], [(100, [5])], [], [], ∅⟩ 7 1 =
      (⟨[(1, 100)], [(100, [5])], [], [], ∅⟩, false)) :=
  ⟨(controlled_entities_ops_idempotent _ 1 100 5 [5] (by decide) (by decide)).1
      (by decide),
   (controlled_entities_ops_idempotent _ 1 100 7 [5] (by decide) (by decide)).2
      (by decide)⟩

/-- Claim C10: frame property. Processing a ControlledBy update whose target is
`Single(c)` can change only client `c`'s ControlledEntities set: for any other
client `p ≠ c` (client entities being distinct, as in the ECS), `p`'s set is
unchanged by the update. -/
theorem single_update_other_peer_unchanged (w : World) (e : Entity)
    (c p : ClientId) (pe : Entity)
    (hcb : alookup w.controlledBy e = some (NetworkTarget.single c))
    (hnd : (w.clientEntity.map Prod.snd).Nodup)
    (hpc : p ≠ c)
    (hpe : w.client_entity p = some pe) :
    alookup (handle_controlled_by_update w e).1.controlled pe =
      alookup w.controlled pe := by
  have hred : (handle_controlled_by_update w e).1 = (insertForClients e w [c]).1 := by
    unfold handle_controlled_by_update
    rw [hcb]
  rw [hred, insertForClients_controlled]
  have hno : ¬ ∃ c' ∈ [c], w.client_entity c' = some pe := by
    rintro ⟨c', hc', hsome⟩
    rw [List.mem_singleton] at hc'
    subst hc'
    cases hc : w.client_entity c' with
    | none => rw [hc] at hsome; cases hsome
    | some ce =>
      rw [hc] at hsome
      have hne := alookup_ne_of_values_nodup w.clientEntity hnd p c' pe ce hpe hc hpc
      injection hsome with hcepe
      exact hne hcepe.symm
  rw [if_neg hno]

/-- Witness for C10: with clients 1 ↦ 100 and 2 ↦ 200 and entity 5 controlled
by `Single(1)`, running the update leaves client 2's set untouched. -/
theorem single_update_other_peer_unchanged_witness :
    alookup (handle_controlled_by_update
        ⟨[(1, 100), (2, 200)], [(100, []), (200, [])],
          [(5, NetworkTarget.single 1)], [], ∅⟩ 5).1.controlled 200 =
      alookup (⟨[(1, 100), (2, 200)], [(100, []), (200, [])],
          [(5, NetworkTarget.single 1)], [], ∅⟩ : World).controlled 200 :=
  single_update_other_peer_unchanged _ 5 1 2 200 (by decide) (by decide)
    (by decide) (by decide)

/-- Claim C8: setting a ControlledBy target `Only(set)` fans the insert out to
every client in the set that is connected and has a bookkeeping record; clients
in the set that are not connected, or whose record is missing, are skipped
silently (the embedding is total, so no error can occur, and no other client
entity's record changes; the rest of the world is untouched). -/
theorem only_target_fanout (w : World) (e : Entity) (cs : List ClientId)
    (hcb : alookup w.controlledBy e = some (NetworkTarget.only cs)) :
    (∀ c ∈ cs, ∀ ce s, w.client_entity c = some ce →
        alookup w.controlled ce = some s →
        alookup (handle_controlled_by_update w e).1.controlled ce =
          some (listInsert e s) ∧ e ∈ listInsert e s) ∧
    (∀ c ∈ cs, ∀ ce, w.client_entity c = some ce →
        alookup w.controlled ce = none →
        alookup (handle_controlled_by_update w e).1.controlled ce = none) ∧
    (∀ x, (∀ c ∈ cs, w.client_entity c ≠ some x) →
        alookup (handle_controlled_by_update w e).1.controlled x =
          alookup w.controlled x) ∧
    (handle_controlled_by_update w e).1.clientEntity = w.clientEntity ∧
    (handle_controlled_by_update w e).1.controlledBy = w.controlledBy ∧
    (handle_controlled_by_update w e).1.alive = w.alive := by
  have hred : (handle_controlled_by_update w e).1 = (insertForClients e w cs).1 := by
    unfold handle_controlled_by_update
    rw [hcb]
  refine ⟨?_, ?_, ?_, ?_, ?_, ?_⟩
  · intro c hc ce s hce hs
    rw [hred, insertForClients_controlled, if_pos ⟨c, hc, hce⟩, hs]
    exact ⟨rfl, mem_listInsert_self e s⟩
  · intro c hc ce hce hs
    rw [hred, insertForClients_controlled]
    by_cases hex : ∃ c' ∈ cs, w.client_entity c' = some ce
    · rw [if_pos hex, hs]
      rfl
    · rw [if_neg hex]
      exact hs
  · intro x hx
    have hno : ¬ ∃ c' ∈ cs, w.client_entity c' = some x := by
      rintro ⟨c', hc', hsome⟩
      exact hx c' hc' hsome
    rw [hred, insertForClients_controlled, if_neg hno]
  · rw [hred]
    exact (insertForClients_frame e cs w).1
  · rw [hred]
    exact (insertForClients_frame e cs w).2.1
  · rw [hred]
    exact (insertForClients_frame e cs w).2.2.2

/-- Witness for C8: target `Only([1, 3])` with only client 1 connected: client
1's set gains entity 5, and an entity (300) that is nobody's client entity in
the set keeps its record unchanged. -/
theorem only_target_fanout_witness :
    (alookup (handle_controlled_by_update
        ⟨[(1, 100)], [(100, [])], [(5, NetworkTarget.only [1, 3])], [], ∅⟩
        5).1.controlled 100 = some (listInsert 5 []) ∧
      (5 : Entity) ∈ listInsert 5 []) ∧
    alookup (handle_controlled_by_update
        ⟨[(1, 100)], [(100, [])], [(5, NetworkTarget.only [1, 3])], [], ∅⟩
        5).1.controlled 300 =
      alookup (⟨[(1, 100)], [(100, [])], [(5, NetworkTarget.only [1, 3])], [], ∅⟩ :
        World).controlled 300 :=
  ⟨(only_target_fanout _ 5 [1, 3] (by decide)).1 1 (by decide) 100 [] (by decide)
      (by decide),
   (only_target_fanout _ 5 [1, 3] (by decide)).2.2.1 300 (by decide)⟩

/-- Claim C5: round trip. For a connected peer `a`, giving entity `e` the
ControlledBy target `Single(a)` and running the update handler puts `e` into
`a`'s ControlledEntities; clearing the component afterwards (which runs the
`OnRemove` observer while the component is still readable, before it is
dropped) takes `e` back out of `a`'s set. -/
theorem single_assign_round_trip (w : World) (a : ClientId) (ca e : Entity)
    (s : List Entity)
    (hca : w.client_entity a = some ca)
    (hs : alookup w.controlled ca = some s) :
    (∃ s1, alookup (handle_controlled_by_update
        (setControlledBy w e (NetworkTarget.single a)) e).1.controlled ca =
          some s1 ∧ e ∈ s1) ∧
    (∃ s2, alookup (removeControlledBy (handle_controlled_by_update
        (setControlledBy w e (NetworkTarget.single a)) e).1 e).controlled ca =
          some s2 ∧ e ∉ s2) := by
  obtain ⟨f1, f2, f3, f4, f5⟩ := setControlledBy_fields w e (NetworkTarget.single a)
  have h0ce : (setControlledBy w e (NetworkTarget.single a)).client_entity a =
      some ca := by
    unfold World.client_entity
    rw [f1]
    exact hca
  have h0s : alookup (setControlledBy w e (NetworkTarget.single a)).controlled ca =
      some s := by
    rw [f2]
    exact hs
  have hred : (handle_controlled_by_update
      (setControlledBy w e (NetworkTarget.single a)) e).1 =
      (insertForClients e (setControlledBy w e (NetworkTarget.single a)) [a]).1 := by
    unfold handle_controlled_by_update
    rw [f5]
  have h1look : alookup (handle_controlled_by_update
      (setControlledBy w e (NetworkTarget.single a)) e).1.controlled ca =
      some (listInsert e s) := by
    rw [hred, insertForClients_controlled,
        if_pos ⟨a, List.mem_cons_self a [], h0ce⟩, h0s]
    rfl
  refine ⟨⟨listInsert e s, h1look, mem_listInsert_self e s⟩, ?_⟩
  have h1cb : alookup (handle_controlled_by_update
      (setControlledBy w e (NetworkTarget.single a)) e).1.controlledBy e =
      some (NetworkTarget.single a) := by
    rw [(handle_update_frame _ e).2.1]
    exact f5
  have h1ce : (handle_controlled_by_update
      (setControlledBy w e (NetworkTarget.single a)) e).1.client_entity a =
      some ca := by
    unfold World.client_entity
    rw [(handle_update_frame _ e).1]
    exact h0ce
  have hred2 : (handle_controlled_by_remove (handle_controlled_by_update
      (setControlledBy w e (NetworkTarget.single a)) e).1 e).1 =
      (removeForClients e (handle_controlled_by_update
        (setControlledBy w e (NetworkTarget.single a)) e).1 [a]).1 := by
    unfold handle_controlled_by_remove
    rw [h1cb]
  have h2look : alookup (removeControlledBy (handle_controlled_by_update
      (setControlledBy w e (NetworkTarget.single a)) e).1 e).controlled ca =
      some (listRemove e (listInsert e s)) := by
    show alookup (handle_controlled_by_remove (handle_controlled_by_update
      (setControlledBy w e (NetworkTarget.single a)) e).1 e).1.controlled ca = _
    rw [hred2, removeForClients_controlled,
        if_pos ⟨a, List.mem_cons_self a [], h1ce⟩, h1look]
    rfl
  exact ⟨listRemove e (listInsert e s), h2look, not_mem_listRemove e _⟩

/-- Witness for C5 at a concrete world: client 1 connected with entity 100 and
an empty set; object 5 is assigned `Single(1)` and then cleared. -/
theorem single_assign_round_trip_witness :
    (∃ s1, alookup (handle_controlled_by_update
        (setControlledBy ⟨[(1, 100)], [(100, [])], [], [], ∅⟩ 5
          (NetworkTarget.single 1)) 5).1.controlled 100 =
          some s1 ∧ (5 : Entity) ∈ s1) ∧
    (∃ s2, alookup (removeControlledBy (handle_controlled_by_update
        (setControlledBy ⟨[(1, 100)], [(100, [])], [], [], ∅⟩ 5
          (NetworkTarget.single 1)) 5).1 5).controlled 100 =
          some s2 ∧ (5 : Entity) ∉ s2) :=
  single_assign_round_trip _ 1 100 5 [] (by decide) (by decide)

theorem queueDespawns_eq_of_some (w : World) (es : List Entity)
    (cs : List Command) (h : queueDespawns w es = some cs) :
    cs = es.map Command.despawnRec := by
  induction es generalizing cs with
  | nil =>
    simp only [queueDespawns] at h
    injection h with h
    simp [h.symm]
  | cons e es ih =>
    by_cases he : e ∈ w.alive
    · simp only [queueDespawns, if_pos he] at h
      cases hq : queueDespawns w es with
      | none => rw [hq] at h; cases h
      | some cs' =>
        rw [hq] at h
        injection h with h
        rw [← h, List.map_cons, ih cs' hq]
    · simp [queueDespawns, he] at h

/-- When queueing succeeds (every addressed entity exists), the checked
commands are exactly the commands of the unchecked model. -/
theorem disconnectCommandsChecked_sound (w : World) (ev : DisconnectEvent)
    (cs : List Command) (h : disconnectCommandsChecked w ev = some cs) :
    cs = disconnectCommands w ev := by
  unfold disconnectCommandsChecked at h
  unfold disconnectCommands
  cases hr : alookup w.controlled ev.entity with
  | none =>
    rw [hr] at h
    rw [queueDespawns_eq_of_some w _ cs h]
    rfl
  | some s =>
    rw [hr] at h
    rw [queueDespawns_eq_of_some w _ cs h, List.map_append]
    rfl

/-- Claim C6 (amended): on a disconnect event for a peer whose bookkeeping
record is absent, the controlled-entity cascade is skipped — the only command
queued is the handler's unconditional recursive despawn of the event's client
entity. If that entity is already despawned, addressing it at queue time
panics (`Commands::entity`, bevy 0.14) and the system aborts with nothing
applied; if it still exists, it alone is recursively despawned. -/
theorem disconnect_absent_record_skips_cascade (w : World) (ev : DisconnectEvent)
    (hrec : alookup w.controlled ev.entity = none) :
    disconnectCommandsChecked w ev =
      (if ev.entity ∈ w.alive then some [Command.despawnRec ev.entity]
       else none) ∧
    (ev.entity ∉ w.alive → handle_client_disconnect_checked w [ev] = none) ∧
    (ev.entity ∈ w.alive →
      handle_client_disconnect_checked w [ev] =
        some (despawn_recursive w ev.entity)) := by
  have hcmds : disconnectCommandsChecked w ev =
      (if ev.entity ∈ w.alive then some [Command.despawnRec ev.entity]
       else none) := by
    unfold disconnectCommandsChecked
    rw [hrec]
    show queueDespawns w [ev.entity] = _
    by_cases he : ev.entity ∈ w.alive
    · simp [queueDespawns, he]
    · simp [queueDespawns, he]
  refine ⟨hcmds, ?_, ?_⟩
  · intro he
    unfold handle_client_disconnect_checked queueAllDisconnects
    rw [hcmds, if_neg he]
    rfl
  · intro he
    unfold handle_client_disconnect_checked queueAllDisconnects
    rw [hcmds, if_pos he]
    rfl

/-- Witness for the amended C6: with the record absent, the dead client entity
300 makes queueing abort, while the live record-less client entity 100 is
itself despawned. -/
theorem disconnect_absent_record_skips_cascade_witness :
    handle_client_disconnect_checked ⟨[(1, 100)], [(100, [])], [], [], {100}⟩
      [⟨2, 300⟩] = none ∧
    handle_client_disconnect_checked ⟨[(1, 100)], [], [], [], {100}⟩ [⟨1, 100⟩] =
      some (despawn_recursive ⟨[(1, 100)], [], [], [], {100}⟩ 100) :=
  ⟨(disconnect_absent_record_skips_cascade _ ⟨2, 300⟩ (by decide)).2.1 (by decide),
   (disconnect_absent_record_skips_cascade _ ⟨1, 100⟩ (by decide)).2.2 (by decide)⟩

/-- Claim C6 as stated is false on the code: line 149 of `clients.rs` issues
the client-entity despawn unconditionally. At the first input the record is
absent and the client entity 300 is already dead, so the queue-time existence
check of `Commands::entity` panics and the handling aborts instead of
no-oping; at the second input the record is absent but the client entity 100
still exists, so a destruction is issued and the state changes (100 is no
longer alive). -/
theorem disconnect_absent_not_noop :
    (alookup (⟨[(1, 100)], [(100, [])], [], [], {100}⟩ : World).controlled 300 =
        none ∧
      handle_client_disconnect_checked ⟨[(1, 100)], [(100, [])], [], [], {100}⟩
        [⟨2, 300⟩] = none) ∧
    (alookup (⟨[(1, 100)], [], [], [], {100}⟩ : World).controlled 100 = none ∧
      (100 : Entity) ∈ (⟨[(1, 100)], [], [], [], {100}⟩ : World).alive ∧
      handle_client_disconnect_checked ⟨[(1, 100)], [], [], [], {100}⟩
        [⟨1, 100⟩] =
        some (despawn_recursive ⟨[(1, 100)], [], [], [], {100}⟩ 100) ∧
      (100 : Entity) ∉
        (despawn_recursive (⟨[(1, 100)], [], [], [], {100}⟩ : World) 100).alive) :=
  ⟨⟨rfl, rfl⟩, rfl, by decide, rfl, by decide⟩

/-- Claim C3: disconnect cascade. If a disconnecting peer's record holds the
set `s`, then the queued commands are exactly the despawns of the controlled
entities followed by the despawn of the client entity (destruction issued
before record removal); after the system runs, every controlled entity and all
of its descendants are dead, the peer's record is gone, and its client entity
is dead. -/
theorem disconnect_cascade (w : World) (ev : DisconnectEvent) (s : List Entity)
    (hrec : alookup w.controlled ev.entity = some s) :
    disconnectCommands w ev =
      s.map Command.despawnRec ++ [Command.despawnRec ev.entity] ∧
    (∀ e ∈ s, ∀ d ∈ descendants w.children e,
        d ∉ (handle_client_disconnect w [ev]).alive) ∧
    alookup (handle_client_disconnect w [ev]).controlled ev.entity = none ∧
    ev.entity ∉ (handle_client_disconnect w [ev]).alive := by
  have hcmds : disconnectCommands w ev =
      s.map Command.despawnRec ++ [Command.despawnRec ev.entity] := by
    unfold disconnectCommands
    rw [hrec]
  have hrun : handle_client_disconnect w [ev] =
      applyCommands w (s.map Command.despawnRec ++ [Command.despawnRec ev.entity]) := by
    unfold handle_client_disconnect
    rw [List.map_cons, List.map_nil, hcmds]
    simp
  refine ⟨hcmds, ?_, ?_, ?_⟩
  · intro e he d hd
    rw [hrun]
    exact applyCommands_kills _ w e
      (List.mem_append_left _ (List.mem_map_of_mem _ he)) d hd
  · rw [hrun]
    exact applyCommands_controlled_none_of_mem _ w ev.entity
      (List.mem_append_right _ (List.mem_cons_self _ _))
  · rw [hrun]
    exact applyCommands_kills _ w ev.entity
      (List.mem_append_right _ (List.mem_cons_self _ _)) ev.entity
      (self_mem_descendants w.children ev.entity)

/-- Witness for C3: client 1 (entity 100) controls 5 and 6; 6 has child 7.
After the disconnect, 5, 6, 7 and 100 are dead and the record is gone, and the
command list despawns 5 and 6 before 100. -/
theorem disconnect_cascade_witness :
    disconnectCommands ⟨[(1, 100)], [(100, [5, 6])], [], [(6, 7)], {5, 6, 7, 100}⟩
        ⟨1, 100⟩ =
      [5, 6].map Command.despawnRec ++ [Command.despawnRec 100] ∧
    (5 : Entity) ∉ (handle_client_disconnect
        ⟨[(1, 100)], [(100, [5, 6])], [], [(6, 7)], {5, 6, 7, 100}⟩
        [⟨1, 100⟩]).alive ∧
    (7 : Entity) ∉ (handle_client_disconnect
        ⟨[(1, 100)], [(100, [5, 6])], [], [(6, 7)], {5, 6, 7, 100}⟩
        [⟨1, 100⟩]).alive ∧
    alookup (handle_client_disconnect
        ⟨[(1, 100)], [(100, [5, 6])], [], [(6, 7)], {5, 6, 7, 100}⟩
        [⟨1, 100⟩]).controlled 100 = none ∧
    (100 : Entity) ∉ (handle_client_disconnect
        ⟨[(1, 100)], [(100, [5, 6])], [], [(6, 7)], {5, 6, 7, 100}⟩
        [⟨1, 100⟩]).alive :=
  have h := disconnect_cascade
    ⟨[(1, 100)], [(100, [5, 6])], [], [(6, 7)], {5, 6, 7, 100}⟩ ⟨1, 100⟩ [5, 6]
    (by decide)
  ⟨h.1, h.2.1 5 (by decide) 5 (by decide), h.2.1 6 (by decide) 7 (by decide),
   h.2.2.1, h.2.2.2⟩

/-- Claim C9: the disconnect cascade is registered in the `Last` schedule,
which no other registration of the plugin comes after, so within a tick every
user system or observer (modelled as an arbitrary state transformer running in
the earlier schedules) sees the raw disconnect event first; the cascade then
runs before the tick ends, so no entity controlled by the disconnected peer
(as recorded when the cascade runs) survives past the tick boundary. -/
theorem disconnect_cascade_runs_last (user : World → World) (w : World)
    (evs : List DisconnectEvent) (ev : DisconnectEvent) (s : List Entity)
    (hev : ev ∈ evs)
    (hs : alookup (user w).controlled ev.entity = some s) :
    ((Sched.last, SystemId.handleClientDisconnect) ∈ clientsMetadataPluginSystems ∧
      (∀ sc sys, (sc, sys) ∈ clientsMetadataPluginSystems →
        schedIndex sc ≤ schedIndex Sched.last)) ∧
    (∀ e ∈ s, e ∉ (runTick user w evs).alive) := by
  refine ⟨⟨?_, ?_⟩, ?_⟩
  · simp [clientsMetadataPluginSystems]
  · intro sc sys hmem
    simp only [clientsMetadataPluginSystems, List.mem_cons, List.mem_singleton,
      Prod.mk.injEq, List.not_mem_nil, or_false] at hmem
    rcases hmem with ⟨h1, _⟩ | ⟨h1, _⟩ <;> subst h1 <;> simp [schedIndex]
  · intro e he
    unfold runTick handle_client_disconnect
    refine applyCommands_kills _ (user w) e ?_ e
      (self_mem_descendants (user w).children e)
    refine List.mem_flatten.mpr
      ⟨disconnectCommands (user w) ev, List.mem_map_of_mem _ hev, ?_⟩
    unfold disconnectCommands
    rw [hs]
    exact List.mem_append_left _ (List.mem_map_of_mem _ he)

/-- Witness for C9 with the identity user phase: client 1 controls entity 5;
after the tick containing the disconnect, 5 is not alive. -/
theorem disconnect_cascade_runs_last_witness :
    ((Sched.last, SystemId.handleClientDisconnect) ∈ clientsMetadataPluginSystems ∧
      (∀ sc sys, (sc, sys) ∈ clientsMetadataPluginSystems →
        schedIndex sc ≤ schedIndex Sched.last)) ∧
    (5 : Entity) ∉ (runTick id ⟨[(1, 100)], [(100, [5])], [], [], {5, 100}⟩
      [⟨1, 100⟩]).alive :=
  have h := disconnect_cascade_runs_last id
    ⟨[(1, 100)], [(100, [5])], [], [], {5, 100}⟩ [⟨1, 100⟩] ⟨1, 100⟩ [5]
    (List.mem_cons_self _ _) (by decide)
  ⟨h.1, h.2 5 (by decide)⟩

/-- Claim C7: the proximity policy of the distributed-authority example. With
one ball, if `a` is the unique player within distance 100 of the ball, the
system transfers authority over the ball to that player; if every player is at
distance 100 or more, it transfers authority to the server. -/
theorem transfer_authority_policy (ballE : Entity) (ballPos : Int × Int)
    (players : List (ClientId × (Int × Int))) :
    (∀ a ∈ players, distBelow100 a.2 ballPos = true →
        (∀ p ∈ players, distBelow100 p.2 ballPos = true → p = a) →
        transfer_authority [(ballE, ballPos)] players =
          [(ballE, AuthorityPeer.client a.1)]) ∧
    ((∀ p ∈ players, distBelow100 p.2 ballPos = false) →
        transfer_authority [(ballE, ballPos)] players =
          [(ballE, AuthorityPeer.server)]) := by
  constructor
  · intro a ha hpa huniq
    unfold transfer_authority
    rw [find_eq_of_unique players _ a ha hpa huniq]
  · intro hall
    unfold transfer_authority
    rw [List.find?_eq_none.mpr (fun p hp => by simp [hall p hp])]
    rfl

/-- Witness for C7: ball at the origin; players at distances 80 and 150 give
authority to the close player; with the close player moved to 120, both are
beyond 100 and authority goes back to the server. -/
theorem transfer_authority_policy_witness :
    transfer_authority [(50, ((0 : Int), (0 : Int)))]
        [(1, (80, 0)), (2, (150, 0))] = [(50, AuthorityPeer.client 1)] ∧
    transfer_authority [(50, ((0 : Int), (0 : Int)))]
        [(1, (120, 0)), (2, (150, 0))] = [(50, AuthorityPeer.server)] :=
  ⟨(transfer_authority_policy 50 (0, 0) [(1, (80, 0)), (2, (150, 0))]).1
      (1, (80, 0)) (by decide) (by decide) (by decide),
   (transfer_authority_policy 50 (0, 0) [(1, (120, 0)), (2, (150, 0))]).2
      (by decide)⟩

/-- Claim C1 fails on the code (the failing input evaluated): clients 1 and 2
are connected (entities 100 and 200, both with empty sets). Entity 5 first
gets ControlledBy `Single(1)` and the update handler runs; then the component
is overwritten to `Single(2)` (a component overwrite, which does not fire the
`OnRemove` observer) and the handler runs again. Afterwards entity 5 is still
in client 1's ControlledEntities: the handler only inserts, and the removal
the invariant requires is the `TODO` left at the top of `clients.rs`. -/
theorem stale_membership_after_reassignment :
    alookup ((handle_controlled_by_update
        (setControlledBy
          ((handle_controlled_by_update
            (setControlledBy
              (⟨[(1, 100), (2, 200)], [(100, []), (200, [])], [], [], ∅⟩ : World)
              5 (NetworkTarget.single 1)) 5).1)
          5 (NetworkTarget.single 2)) 5).1).controlled 100 = some [5] ∧
    alookup ((handle_controlled_by_update
        (setControlledBy
          ((handle_controlled_by_update
            (setControlledBy
              (⟨[(1, 100), (2, 200)], [(100, []), (200, [])], [], [], ∅⟩ : World)
              5 (NetworkTarget.single 1)) 5).1)
          5 (NetworkTarget.single 2)) 5).1).controlled 200 = some [5] := by
  decide

/-- Claim C2 fails on the code (the failing input evaluated): clients 1 and 2
are connected (entities 100 and 200). Entity 5 gets ControlledBy
`AllExceptSingle(1)`; the catch-all arm of `handle_controlled_by_update`
treats this exactly like `All` and fans out to every connected client, so the
excluded client 1 receives entity 5 in its ControlledEntities as well. -/
theorem all_except_single_inserts_into_excluded :
    alookup ((handle_controlled_by_update
        (setControlledBy
          (⟨[(1, 100), (2, 200)], [(100, []), (200, [])], [], [], ∅⟩ : World)
          5 (NetworkTarget.allExceptSingle 1)) 5).1).controlled 100 =
      some [5] ∧
    alookup ((handle_controlled_by_update
        (setControlledBy
          (⟨[(1, 100), (2, 200)], [(100, []), (200, [])], [], [], ∅⟩ : World)
          5 (NetworkTarget.allExceptSingle 1)) 5).1).controlled 200 =
      some [5] := by
  decide
